/-
  Verification development for the trading-bot repository (trading_bot.py).

  Shallow embedding of the signed-request client (BasicBot._sign_payload,
  BasicBot._send_signed_request), the order builders (place_market_order,
  place_limit_order, place_stop_limit), the TWAP slicer (place_twap) and the
  CLI validator (validate_args).

  Modelling conventions:
  * Python str is Lean String; Python dicts (insertion-ordered) are
    association lists List (String × String); dict assignment d[k] = v is
    dictAssign (update in place when the key exists, append otherwise).
  * Python float arithmetic is modelled over exact rationals; Python's
    round(x, 8) is decimal round-half-to-even on the exact value.
  * An exception raised past a function is an Except.error value; a normal
    return is Except.ok.  Message text produced by library exceptions
    (requests.HTTPError, JSONDecodeError) is modelled structurally by errMsg.
  * The network is an environment oracle (HttpOutcome): either a response
    with a status, a body, and a flag saying whether the body parses as
    JSON, or a transport failure.  The decoded JSON value is modelled by the
    body text itself.
  * Wall-clock inputs (time.time() * 1000) are explicit ts arguments;
    time.sleep is recorded in a sleeps list.
-/
import Mathlib

set_option autoImplicit false

/-! ## Bytes, hex, UTF-8 -/

/-- UTF-8 encoding of a single code point, as byte values. -/
def utf8Char (c : Char) : List Nat :=
  let n := c.toNat
  if n < 128 then [n]
  else if n < 2048 then [192 + n / 64, 128 + n % 64]
  else if n < 65536 then [224 + n / 4096, 128 + n / 64 % 64, 128 + n % 64]
  else [240 + n / 262144, 128 + n / 4096 % 64, 128 + n / 64 % 64, 128 + n % 64]

/-- UTF-8 encoding of a string (Python `s.encode("utf-8")`). -/
def utf8Bytes (s : String) : List Nat :=
  (s.data.map utf8Char).flatten

/-- Uppercase hex digit, used by percent-encoding. -/
def hexDigitU (n : Nat) : Char :=
  "0123456789ABCDEF".data.getD n '0'

/-- Lowercase hex digit, used by hexdigest. -/
def hexDigitL (n : Nat) : Char :=
  "0123456789abcdef".data.getD n '0'

/-- Numeric value of a hex digit character (either case). -/
def hexVal (c : Char) : Nat :=
  if '0' ≤ c ∧ c ≤ '9' then c.toNat - 48
  else if 'a' ≤ c ∧ c ≤ 'f' then c.toNat - 87
  else if 'A' ≤ c ∧ c ≤ 'F' then c.toNat - 55
  else 0

def isHexDigitChar (c : Char) : Bool :=
  ('0' ≤ c && c ≤ '9') || ('a' ≤ c && c ≤ 'f') || ('A' ≤ c && c ≤ 'F')

/-- Lowercase hex rendering of a byte list (Python `hexdigest()`). -/
def bytesToHexLower (bs : List Nat) : String :=
  String.mk ((bs.map (fun b => [hexDigitL (b / 16), hexDigitL (b % 16)])).flatten)

/-! ## SHA-256 (FIPS 180-4), words as Nat reduced mod 2^32 -/

def w32 (n : Nat) : Nat := n % 4294967296

def rotr (n x : Nat) : Nat := w32 ((x >>> n) ||| (x <<< (32 - n)))

def bigSigma0 (x : Nat) : Nat := rotr 2 x ^^^ rotr 13 x ^^^ rotr 22 x
def bigSigma1 (x : Nat) : Nat := rotr 6 x ^^^ rotr 11 x ^^^ rotr 25 x
def smallSigma0 (x : Nat) : Nat := rotr 7 x ^^^ rotr 18 x ^^^ (x >>> 3)
def smallSigma1 (x : Nat) : Nat := rotr 17 x ^^^ rotr 19 x ^^^ (x >>> 10)

def chF (x y z : Nat) : Nat := (x &&& y) ^^^ ((x ^^^ 4294967295) &&& z)
def majF (x y z : Nat) : Nat := (x &&& y) ^^^ (x &&& z) ^^^ (y &&& z)

def sha256K : List Nat :=
  [1116352408, 1899447441, 3049323471, 3921009573, 961987163, 1508970993,
   2453635748, 2870763221, 3624381080, 310598401, 607225278, 1426881987,
   1925078388, 2162078206, 2614888103, 3248222580, 3835390401, 4022224774,
   264347078, 604807628, 770255983, 1249150122, 1555081692, 1996064986,
   2554220882, 2821834349, 2952996808, 3210313671, 3336571891, 3584528711,
   113926993, 338241895, 666307205, 773529912, 1294757372, 1396182291,
   1695183700, 1986661051, 2177026350, 2456956037, 2730485921, 2820302411,
   3259730800, 3345764771, 3516065817, 3600352804, 4094571909, 275423344,
   430227734, 506948616, 659060556, 883997877, 958139571, 1322822218,
   1537002063, 1747873779, 1955562222, 2024104815, 2227730452, 2361852424,
   2428436474, 2756734187, 3204031479, 3329325298]

def sha256Init : List Nat :=
  [1779033703, 3144134277, 1013904242, 2773480762,
   1359893119, 2600822924, 528734635, 1541459225]

/-- Big-endian byte rendering of a value in the given number of bytes. -/
def beBytes : Nat → Nat → List Nat
  | 0, _ => []
  | k + 1, v => beBytes k (v / 256) ++ [v % 256]

/-- SHA-256 message padding: append 0x80, zeros, and the 64-bit bit length. -/
def padMsg (msg : List Nat) : List Nat :=
  msg ++ [128] ++ List.replicate ((119 - msg.length % 64) % 64) 0 ++ beBytes 8 (8 * msg.length)

/-- Group bytes into big-endian 32-bit words. -/
def wordsOf : List Nat → List Nat
  | b0 :: b1 :: b2 :: b3 :: rest =>
      (b0 * 16777216 + b1 * 65536 + b2 * 256 + b3) :: wordsOf rest
  | _ => []

def extendStep (w : List Nat) : List Nat :=
  let n := w.length
  w ++ [w32 (smallSigma1 (w.getD (n - 2) 0) + w.getD (n - 7) 0 +
             smallSigma0 (w.getD (n - 15) 0) + w.getD (n - 16) 0)]

def extendTo (w : List Nat) : Nat → List Nat
  | 0 => w
  | k + 1 => extendTo (extendStep w) k

def compressStep (s : List Nat) (kw : Nat × Nat) : List Nat :=
  match s with
  | [a, b, c, d, e, f, g, h] =>
      let t1 := w32 (h + bigSigma1 e + chF e f g + kw.1 + kw.2)
      let t2 := w32 (bigSigma0 a + majF a b c)
      [w32 (t1 + t2), a, b, c, w32 (d + t1), e, f, g]
  | _ => s

def compressBlock (h0 : List Nat) (block : List Nat) : List Nat :=
  let ws := extendTo (wordsOf block) 48
  let s := (sha256K.zip ws).foldl compressStep h0
  (h0.zip s).map (fun p => w32 (p.1 + p.2))

def chunksGo : Nat → List Nat → List (List Nat)
  | 0, _ => []
  | _, [] => []
  | n + 1, l => l.take 64 :: chunksGo n (l.drop 64)

def chunks64 (l : List Nat) : List (List Nat) := chunksGo l.length l

/-- SHA-256 digest of a byte list, as 32 bytes. -/
def sha256 (msg : List Nat) : List Nat :=
  (((chunks64 (padMsg msg)).foldl compressBlock sha256Init).map (beBytes 4)).flatten

/-- HMAC-SHA256 (RFC 2104) over byte lists, digest as 32 bytes. -/
def hmacSha256 (key msg : List Nat) : List Nat :=
  let k0 := if 64 < key.length then sha256 key else key
  let k1 := k0 ++ List.replicate (64 - k0.length) 0
  sha256 ((k1.map (fun b => b ^^^ 92)) ++ sha256 ((k1.map (fun b => b ^^^ 54)) ++ msg))

/-- `hmac.new(key, msg, hashlib.sha256).hexdigest()`. -/
def hmacSha256Hex (key msg : List Nat) : String :=
  bytesToHexLower (hmacSha256 key msg)

/-! ## Percent-encoding (urllib.parse.urlencode / quote_plus) -/

/-- Bytes never quoted by `urllib.parse.quote`: ALPHA, DIGIT, `_`, `.`, `-`, `~`. -/
def isSafeByte (b : Nat) : Bool :=
  (65 ≤ b && b ≤ 90) || (97 ≤ b && b ≤ 122) || (48 ≤ b && b ≤ 57) ||
  b == 95 || b == 46 || b == 45 || b == 126

/-- Per-byte expansion of `quote_plus`: safe bytes kept, space becomes `+`,
everything else percent-encoded with uppercase hex. -/
def qpBytes : List Nat → List Char
  | [] => []
  | b :: bs =>
      (if isSafeByte b then [Char.ofNat b]
       else if b == 32 then ['+']
       else ['%', hexDigitU (b / 16), hexDigitU (b % 16)]) ++ qpBytes bs

/-- `urllib.parse.quote_plus(s)` with the default empty safe set, as used by
`urlencode`. -/
def quotePlus (s : String) : String :=
  String.mk (qpBytes (utf8Bytes s))

/-- One `key=value` fragment of `urlencode`. -/
def encPair (p : String × String) : List Char :=
  (quotePlus p.1).data ++ '=' :: (quotePlus p.2).data

def urlencodeChars : List (String × String) → List Char
  | [] => []
  | [p] => encPair p
  | p :: ps => encPair p ++ '&' :: urlencodeChars ps

/-- `urllib.parse.urlencode` on an insertion-ordered parameter mapping. -/
def urlencode (ps : List (String × String)) : String :=
  String.mk (urlencodeChars ps)

/-! ## Query-string parsing (specification-side decoder, used to state that
the canonical query string determines the parameters and their order) -/

/-- Inverse of `quote_plus` on character lists: `+` becomes space, `%XX` is
decoded, malformed escapes pass through. -/
def uqChars : List Char → List Char
  | [] => []
  | c :: r =>
      if c = '+' then ' ' :: uqChars r
      else if c = '%' then
        match h : r with
        | h1 :: h2 :: r2 =>
            if isHexDigitChar h1 && isHexDigitChar h2 then
              Char.ofNat (16 * hexVal h1 + hexVal h2) :: uqChars r2
            else c :: uqChars r
        | _ => c :: uqChars r
      else c :: uqChars r
termination_by l => l.length
decreasing_by all_goals (simp_all only [List.length_cons]; omega)

def unquotePlus (s : String) : String := String.mk (uqChars s.data)

/-- Split a character list on `&`. -/
def splitAmp : List Char → List (List Char)
  | [] => [[]]
  | c :: r =>
      if c = '&' then [] :: splitAmp r
      else
        match splitAmp r with
        | [] => [[c]]
        | g :: gs => (c :: g) :: gs

/-- Split a character list at the first `=` (key, value). -/
def splitEq1 : List Char → List Char × List Char
  | [] => ([], [])
  | c :: r =>
      if c = '=' then ([], r)
      else
        let p := splitEq1 r
        (c :: p.1, p.2)

/-- Parse a query string back into an ordered parameter mapping. -/
def parseQs (s : String) : List (String × String) :=
  if s.data = [] then []
  else (splitAmp s.data).map fun piece =>
    (String.mk (uqChars (splitEq1 piece).1), String.mk (uqChars (splitEq1 piece).2))

/-! ## Python dict and string helpers -/

/-- Python `d[k] = v` on an insertion-ordered dict: replace in place if the
key exists, else append at the end. -/
def dictAssign (ps : List (String × String)) (k v : String) : List (String × String) :=
  if ps.any (fun p => p.1 = k) then ps.map (fun p => if p.1 = k then (k, v) else p)
  else ps ++ [(k, v)]

/-- First value bound to a key (Python `d.get(k)`). -/
def lookupKey (ps : List (String × String)) (k : String) : Option String :=
  (ps.find? (fun p => p.1 = k)).map (fun p => p.2)

/-- Python `s.rstrip(\x27/\x27)`. -/
def rstripSlash (s : String) : String :=
  String.mk (s.data.reverse.dropWhile (fun c => c = '/')).reverse

/-- Zero-padded 8-digit decimal rendering of a Nat below 10^8. -/
def pad8 (n : Nat) : List Char :=
  let d := (Nat.toDigits 10 n)
  List.replicate (8 - d.length) '0' ++ d

/-- Fractional digits with trailing zeros stripped. -/
def stripTrailZeros (l : List Char) : List Char :=
  (l.reverse.dropWhile (fun c => c = '0')).reverse

/-- Computable floor of a rational (equal to `Int.floor`, which does not
reduce in the kernel through the `FloorRing` instance). -/
def ratFloor (q : ℚ) : ℤ := q.num / (q.den : ℤ)

/-- Model of Python `str(float)` restricted to nonnegative decimal rationals
with at most 8 fractional digits (the values this program prints); other
values are only approximated, and no theorem evaluates them. -/
def floatStrAbs (q : ℚ) : String :=
  let ip := (ratFloor q).toNat
  let fr := (ratFloor ((q - (ip : ℚ)) * 100000000)).toNat
  let ds := stripTrailZeros (pad8 fr)
  toString ip ++ "." ++ (if ds.isEmpty then "0" else String.mk ds)

/-- Model of Python `str(float)` (sign plus `floatStrAbs`). -/
def floatStr (q : ℚ) : String :=
  if q < 0 then "-" ++ floatStrAbs (-q) else floatStrAbs q

/-- Python `str(b).lower()` on a bool. -/
def pyBoolLower (b : Bool) : String := if b then "true" else "false"

/-- Python `s.upper()` (structural, so that it evaluates in the kernel). -/
def pyUpper (s : String) : String := String.mk (s.data.map Char.toUpper)

/-! ## Rounding (Python round(x, 8) over exact rationals) -/

/-- Round-half-to-even to the nearest integer (Python `round` on the exact
value). -/
def halfEven (x : ℚ) : ℤ :=
  if x - (ratFloor x : ℚ) < 1 / 2 then ratFloor x
  else if 1 / 2 < x - (ratFloor x : ℚ) then ratFloor x + 1
  else if ratFloor x % 2 = 0 then ratFloor x else ratFloor x + 1

/-- Python `round(x, 8)` over exact rationals. -/
def round8 (x : ℚ) : ℚ :=
  ((halfEven (x * 100000000) : ℚ)) / 100000000

/-! ## Data model: network oracle, requests, errors, results -/

/-- Environment oracle for one HTTP exchange: a response with status code,
body text, and whether the body parses as JSON, or a transport failure
(connection/DNS/timeout).  The decoded JSON payload is modelled by the body
text. -/
inductive HttpOutcome
  | resp (status : Nat) (body : String) (jsonOk : Bool)
  | transportFailure (msg : String)
deriving DecidableEq

/-- An HTTP request as transmitted: method, full URL (query string included),
and headers attached by the session. -/
structure SentRequest where
  method : String
  url : String
  headers : List (String × String)
deriving DecidableEq

/-- Exceptions that `_send_signed_request` can raise past its caller:
`httpStatus` is `requests.HTTPError` from `raise_for_status` (status code and
body preserved), `transport` is a connection-level `RequestException`,
`decode` is the JSON decode error from `response.json()`, `valueError` is
the unsupported-method `ValueError`. -/
inductive SendError
  | httpStatus (code : Nat) (body : String)
  | transport (msg : String)
  | decode (body : String)
  | valueError (msg : String)
deriving DecidableEq

/-- Model of `str(e)` for the raised exception; library message text is
modelled structurally (the exact wording of requests/json messages is not
part of this program). -/
def errMsg : SendError → String
  | .httpStatus c _ => toString c ++ " Error"
  | .transport m => m
  | .decode _ => "Expecting value"
  | .valueError m => m

instance exceptDecEq {ε α : Type} [DecidableEq ε] [DecidableEq α] :
    DecidableEq (Except ε α) := fun
  | .ok a, .ok b => if h : a = b then .isTrue (by rw [h]) else .isFalse (by simp [h])
  | .ok _, .error _ => .isFalse (by simp)
  | .error _, .ok _ => .isFalse (by simp)
  | .error a, .error b => if h : a = b then .isTrue (by rw [h]) else .isFalse (by simp [h])

/-- Everything observable about one `_send_signed_request` call:
`callerParams` is the caller's dict after the call (mutation visible to the
caller; `none` when the caller passed `None`), `logs` the lines given to the
logging collaborator, `sent` the requests transmitted on the wire, and
`result` the returned decoded payload (`Except.ok`) or the exception raised
past the caller (`Except.error`). -/
structure SendResult where
  callerParams : Option (List (String × String))
  logs : List String
  sent : List SentRequest
  result : Except SendError String
deriving DecidableEq

/-- The parameter list the caller handed over (`None` becomes the empty
dict). -/
def origParams : Option (List (String × String)) → List (String × String)
  | none => []
  | some l => l

/-- The parameter dict after `params = params or ???` and
`params[timestamp] = int(time.time() * 1000)`: a falsy argument (`None` or
an empty dict) is replaced by a fresh dict, then the timestamp is assigned. -/
def effectiveParams (params : Option (List (String × String))) (ts : Nat) :
    List (String × String) :=
  dictAssign (origParams params) "timestamp" (toString ts)

/-- The canonical query string signed and transmitted:
`urlencode` of the timestamped parameters in insertion order. -/
def canonQuery (params : Option (List (String × String))) (ts : Nat) : String :=
  urlencode (effectiveParams params ts)

/-- `BasicBot._sign_payload`: URL-encode the params, HMAC-SHA256 the encoded
query with the secret as key, append `signature=(hex digest)`. -/
def signPayload (secret : String) (ps : List (String × String)) : String :=
  urlencode ps ++ "&signature=" ++ hmacSha256Hex (utf8Bytes secret) (utf8Bytes (urlencode ps))

/-- The signed query string a send call builds and transmits:
`_sign_payload` applied to the timestamped parameters. -/
def signedQueryStr (secret : String) (params : Option (List (String × String)))
    (ts : Nat) : String :=
  signPayload secret (effectiveParams params ts)

/-- `BasicBot._send_signed_request`.  `secret`/`apiKey`/`baseUrl` are the
constructor state (`base_url` is stored right-stripped of `/`; the session
carries the `X-MBX-APIKEY` header), `ts` is the millisecond clock reading,
`net` the network oracle for this exchange. -/
def sendSignedRequest (secret apiKey baseUrl method path : String)
    (params : Option (List (String × String))) (ts : Nat) (net : HttpOutcome) :
    SendResult :=
  -- the caller sees the mutation only when it passed a truthy (non-empty) dict
  let callerView := params.map (fun l => if l.isEmpty then l else effectiveParams params ts)
  let signedQuery := signedQueryStr secret params ts
  let url := rstripSlash baseUrl ++ path
  let mu := pyUpper method
  let reqLog := "REQUEST -> " ++ mu ++ " " ++ url ++ "?" ++ signedQuery
  if mu = "POST" ∨ mu = "GET" then
    let req : SentRequest := ⟨mu, url ++ "?" ++ signedQuery, [("X-MBX-APIKEY", apiKey)]⟩
    match net with
    | .transportFailure m =>
        { callerParams := callerView
          logs := [reqLog, "HTTP error during signed request: " ++ errMsg (.transport m)]
          sent := [req]
          result := .error (.transport m) }
    | .resp status body jsonOk =>
        let respLog := "RESPONSE <- " ++ toString status ++ " " ++ body
        if 400 ≤ status ∧ status < 600 then
          { callerParams := callerView
            logs := [reqLog, respLog,
                     "HTTP error during signed request: " ++ errMsg (.httpStatus status body)]
            sent := [req]
            result := .error (.httpStatus status body) }
        else if jsonOk then
          { callerParams := callerView
            logs := [reqLog, respLog]
            sent := [req]
            result := .ok body }
        else
          { callerParams := callerView
            logs := [reqLog, respLog,
                     "HTTP error during signed request: " ++ errMsg (.decode body)]
            sent := [req]
            result := .error (.decode body) }
  else
    { callerParams := callerView
      logs := [reqLog]
      sent := []
      result := .error (.valueError ("Unsupported HTTP method: " ++ method)) }

/-! ## Order builders -/

/-- Parameter dict built by `place_market_order`. -/
def marketOrderParams (symbol side : String) (quantity : ℚ) (reduceOnly : Bool) :
    List (String × String) :=
  [("symbol", pyUpper symbol), ("side", pyUpper side), ("type", "MARKET"),
   ("quantity", floatStr quantity), ("reduceOnly", pyBoolLower reduceOnly)]

/-- `BasicBot.place_market_order`. -/
def place_market_order (secret apiKey baseUrl symbol side : String) (quantity : ℚ)
    (reduceOnly : Bool) (ts : Nat) (net : HttpOutcome) : SendResult :=
  sendSignedRequest secret apiKey baseUrl "POST" "/fapi/v1/order"
    (some (marketOrderParams symbol side quantity reduceOnly)) ts net

/-- Parameter dict built by `place_limit_order`. -/
def limitOrderParams (symbol side : String) (quantity price : ℚ)
    (timeInForce : String) (reduceOnly : Bool) : List (String × String) :=
  [("symbol", pyUpper symbol), ("side", pyUpper side), ("type", "LIMIT"),
   ("timeInForce", timeInForce), ("quantity", floatStr quantity),
   ("price", floatStr price), ("reduceOnly", pyBoolLower reduceOnly)]

/-- `BasicBot.place_limit_order`. -/
def place_limit_order (secret apiKey baseUrl symbol side : String)
    (quantity price : ℚ) (timeInForce : String) (reduceOnly : Bool)
    (ts : Nat) (net : HttpOutcome) : SendResult :=
  sendSignedRequest secret apiKey baseUrl "POST" "/fapi/v1/order"
    (some (limitOrderParams symbol side quantity price timeInForce reduceOnly)) ts net

/-- Parameter dict built by `place_stop_limit`. -/
def stopOrderParams (symbol side : String) (quantity stopPrice price : ℚ)
    (timeInForce : String) : List (String × String) :=
  [("symbol", pyUpper symbol), ("side", pyUpper side), ("type", "STOP"),
   ("stopPrice", floatStr stopPrice), ("price", floatStr price),
   ("timeInForce", timeInForce), ("quantity", floatStr quantity)]

/-- `BasicBot.place_stop_limit`. -/
def place_stop_limit (secret apiKey baseUrl symbol side : String)
    (quantity stopPrice price : ℚ) (timeInForce : String)
    (ts : Nat) (net : HttpOutcome) : SendResult :=
  sendSignedRequest secret apiKey baseUrl "POST" "/fapi/v1/order"
    (some (stopOrderParams symbol side quantity stopPrice price timeInForce)) ts net

/-- The single request a `place_market_order` call transmits (it always
sends exactly this one request, whatever the network outcome). -/
def marketSentRequest (secret apiKey baseUrl symbol side : String) (quantity : ℚ)
    (reduceOnly : Bool) (ts : Nat) : SentRequest :=
  ⟨"POST",
   rstripSlash baseUrl ++ "/fapi/v1/order" ++ "?" ++
     signedQueryStr secret (some (marketOrderParams symbol side quantity reduceOnly)) ts,
   [("X-MBX-APIKEY", apiKey)]⟩

/-! ## TWAP slicer -/

/-- One recorded TWAP outcome: the decoded response payload, or the
dict with key error built from `str(e)` when the slice raised. -/
inductive TwapEntry
  | ok (payload : String)
  | err (msg : String)
deriving DecidableEq, Repr

/-- Exceptions raised by `place_twap` itself. -/
inductive PyExn
  | valueError (msg : String)
deriving DecidableEq, Repr

/-- Everything observable about one `place_twap` call: log lines, requests
on the wire, the recorded `time.sleep` durations, and the returned outcome
list (or the `ValueError` raised before the loop). -/
structure TwapResult where
  logs : List String
  sent : List SentRequest
  sleeps : List ℚ
  result : Except PyExn (List TwapEntry)
deriving DecidableEq

/-- Accumulated effects of the TWAP loop. -/
structure TwapAcc where
  logs : List String
  sent : List SentRequest
  sleeps : List ℚ
  entries : List TwapEntry
deriving DecidableEq

/-- The entry recorded for slice `i`: the response payload on success, the
error dict built from `str(e)` when the attempt raised. -/
def sliceEntry (secret apiKey baseUrl symbol side : String) (sliceQty : ℚ)
    (ts : Nat → Nat) (net : Nat → HttpOutcome) (i : Nat) : TwapEntry :=
  match (place_market_order secret apiKey baseUrl symbol side (round8 sliceQty)
           false (ts i) (net i)).result with
  | .ok payload => .ok payload
  | .error e => .err (errMsg e)

/-- The body of the `for i in range(slices)` loop of `place_twap`, iterating
from index `i` with `r` slices remaining. -/
def twapGo (secret apiKey baseUrl symbol side : String) (sliceQty : ℚ)
    (slices : Nat) (interval : ℚ) (ts : Nat → Nat) (net : Nat → HttpOutcome) :
    Nat → Nat → TwapAcc
  | _, 0 => ⟨[], [], [], []⟩
  | i, r + 1 =>
      let sliceLog := "TWAP slice " ++ toString (i + 1) ++ "/" ++ toString slices ++
        ": qty=" ++ floatStr sliceQty
      let sr := place_market_order secret apiKey baseUrl symbol side
        (round8 sliceQty) false (ts i) (net i)
      let entry : TwapEntry :=
        match sr.result with
        | .ok payload => .ok payload
        | .error e => .err (errMsg e)
      let extraLogs : List String :=
        match sr.result with
        | .ok _ => []
        | .error e => ["Error executing TWAP slice " ++ toString (i + 1) ++ ": " ++ errMsg e]
      let sleepsHere : List ℚ := if i < slices - 1 then [interval] else []
      let rest := twapGo secret apiKey baseUrl symbol side sliceQty slices interval ts net
        (i + 1) r
      ⟨sliceLog :: (sr.logs ++ extraLogs ++ rest.logs),
       sr.sent ++ rest.sent,
       sleepsHere ++ rest.sleeps,
       entry :: rest.entries⟩

/-- `BasicBot.place_twap`: validate the slice count, split the quantity,
place one market order per slice (recording an error entry instead of
aborting when a slice raises), sleeping between consecutive slices. -/
def place_twap (secret apiKey baseUrl symbol side : String) (quantity : ℚ)
    (slices : ℤ) (interval : ℚ) (ts : Nat → Nat) (net : Nat → HttpOutcome) :
    TwapResult :=
  if slices ≤ 0 then ⟨[], [], [], .error (.valueError "slices must be >= 1")⟩
  else
    let sliceQty := quantity / (slices : ℚ)
    let startLog := "Starting TWAP: " ++ side ++ " " ++ symbol ++
      " total_qty=" ++ floatStr quantity ++ " slices=" ++ toString slices ++
      " interval=" ++ floatStr interval
    let acc := twapGo secret apiKey baseUrl symbol side sliceQty slices.toNat
      interval ts net 0 slices.toNat
    ⟨startLog :: acc.logs, acc.sent, acc.sleeps, .ok acc.entries⟩

/-! ## CLI argument validation (validate_args) -/

/-- The argparse namespace fields consulted by `validate_args`. -/
structure Args where
  api_key : Option String
  api_secret : Option String
  otype : String
  price : Option ℚ
  stop_price : Option ℚ
  quantity : ℚ
deriving DecidableEq

/-- Python truthiness test `not s` for an optional string (`None` and the
empty string are falsy). -/
def optFalsy : Option String → Bool
  | none => true
  | some s => s = ""

/-- `validate_args`: `Except.error m` models `raise SystemExit(m)`.  It runs
in `main` before the bot is constructed, so before any network activity. -/
def validate_args (a : Args) : Except String Unit :=
  if optFalsy a.api_key || optFalsy a.api_secret then
    .error "API key and secret are required. Set via --api-key/--api-secret or environment variables."
  else if a.otype = "LIMIT" ∧ a.price = none then
    .error "LIMIT orders require --price"
  else if a.otype = "STOP" ∧ (a.stop_price = none ∨ a.price = none) then
    .error "STOP orders require both --stop-price and --price"
  else if a.quantity ≤ 0 then
    .error "quantity must be positive"
  else
    .ok ()

/-! ## Dict lemmas -/

lemma dictAssign_not_mem (ps : List (String × String)) (k v : String)
    (h : k ∉ ps.map Prod.fst) : dictAssign ps k v = ps ++ [(k, v)] := by
  unfold dictAssign
  rw [if_neg]
  intro hany
  rw [List.any_eq_true] at hany
  obtain ⟨p, hp, hpk⟩ := hany
  simp only [decide_eq_true_eq] at hpk
  exact h (hpk ▸ List.mem_map_of_mem Prod.fst hp)

lemma lookupKey_update_ne (ps : List (String × String)) (k v k' : String)
    (h : k' ≠ k) :
    lookupKey (ps.map (fun p => if p.1 = k then (k, v) else p)) k' = lookupKey ps k' := by
  induction ps with
  | nil => rfl
  | cons p ps ih =>
      by_cases hpk : p.1 = k
      · have h1 : ¬(k = k') := fun he => h he.symm
        have h2 : ¬(p.1 = k') := by rw [hpk]; exact h1
        simp only [List.map_cons, if_pos hpk, lookupKey, List.find?]
        simp only [h1, h2, decide_eq_false, Bool.false_eq_true, if_false]
        exact ih
      · simp only [List.map_cons, if_neg hpk, lookupKey, List.find?]
        by_cases hpk' : p.1 = k'
        · simp [hpk']
        · simp only [hpk', decide_eq_false, Bool.false_eq_true, if_false]
          exact ih

lemma lookupKey_append_ne (ps : List (String × String)) (k v k' : String)
    (h : k' ≠ k) :
    lookupKey (ps ++ [(k, v)]) k' = lookupKey ps k' := by
  induction ps with
  | nil =>
      have h1 : ¬(k = k') := fun he => h he.symm
      simp [lookupKey, List.find?, h1]
  | cons p ps ih =>
      simp only [List.cons_append, lookupKey, List.find?]
      by_cases hpk' : p.1 = k'
      · simp [hpk']
      · simp only [hpk', decide_eq_false, Bool.false_eq_true, if_false]
        exact ih

lemma lookupKey_dictAssign_ne (ps : List (String × String)) (k v k' : String)
    (h : k' ≠ k) :
    lookupKey (dictAssign ps k v) k' = lookupKey ps k' := by
  unfold dictAssign
  split_ifs
  · exact lookupKey_update_ne ps k v k' h
  · exact lookupKey_append_ne ps k v k' h

lemma dictAssign_keys_update (ps : List (String × String)) (k v : String) :
    (ps.map (fun p => if p.1 = k then (k, v) else p)).map Prod.fst = ps.map Prod.fst := by
  induction ps with
  | nil => rfl
  | cons p ps ih =>
      by_cases hpk : p.1 = k
      · simp only [List.map_cons, if_pos hpk, ih]
        rw [← hpk]
      · simp only [List.map_cons, if_neg hpk, ih]

lemma dictAssign_not_mem_keys (ps : List (String × String)) (k v k' : String)
    (h1 : k' ∉ ps.map Prod.fst) (h2 : k' ≠ k) :
    k' ∉ (dictAssign ps k v).map Prod.fst := by
  unfold dictAssign
  split_ifs
  · rw [dictAssign_keys_update]
    exact h1
  · rw [List.map_append]
    intro hm
    rcases List.mem_append.1 hm with hm | hm
    · exact h1 hm
    · simp only [List.map_singleton, List.mem_singleton] at hm
      exact h2 hm

/-! ## Basic facts about bytes and characters -/

lemma char_toNat_lt (c : Char) : c.toNat < 1114112 := by
  rcases c.valid with h | ⟨_, h2⟩
  · exact Nat.lt_trans h (by decide)
  · exact h2

lemma utf8Char_lt_256 (c : Char) : ∀ b ∈ utf8Char c, b < 256 := by
  intro b hb
  have hv := char_toNat_lt c
  simp only [utf8Char] at hb
  split_ifs at hb
  · simp only [List.mem_singleton] at hb; omega
  · simp only [List.mem_cons, List.mem_singleton, List.not_mem_nil, or_false] at hb
    rcases hb with hb | hb <;> omega
  · simp only [List.mem_cons, List.mem_singleton, List.not_mem_nil, or_false] at hb
    rcases hb with hb | hb | hb <;> omega
  · simp only [List.mem_cons, List.mem_singleton, List.not_mem_nil, or_false] at hb
    rcases hb with hb | hb | hb | hb <;> omega

lemma utf8Bytes_lt_256 (s : String) : ∀ b ∈ utf8Bytes s, b < 256 := by
  intro b hb
  unfold utf8Bytes at hb
  simp only [List.mem_flatten, List.mem_map] at hb
  obtain ⟨l, ⟨c, _, rfl⟩, hbl⟩ := hb
  exact utf8Char_lt_256 c b hbl

lemma utf8Char_ascii (c : Char) (h : c.toNat < 128) : utf8Char c = [c.toNat] := by
  simp only [utf8Char]
  rw [if_pos h]

lemma flatten_utf8_ascii (l : List Char) (h : ∀ c ∈ l, c.toNat < 128) :
    (l.map utf8Char).flatten = l.map Char.toNat := by
  induction l with
  | nil => rfl
  | cons c r ih =>
      simp only [List.map_cons, List.flatten_cons]
      rw [utf8Char_ascii c (h c (by simp)), ih (fun x hx => h x (by simp [hx]))]
      rfl

lemma utf8Bytes_ascii (s : String) (h : ∀ c ∈ s.data, c.toNat < 128) :
    utf8Bytes s = s.data.map Char.toNat :=
  flatten_utf8_ascii s.data h

lemma safe_lt_128 : ∀ b : Nat, isSafeByte b = true → b < 128 := by
  intro b h
  unfold isSafeByte at h
  simp only [Bool.or_eq_true, Bool.and_eq_true, decide_eq_true_eq, beq_iff_eq] at h
  omega

lemma toNat_ofNat_of_lt (b : Nat) (h : b < 55296) : (Char.ofNat b).toNat = b := by
  have hv : b.isValidChar := Or.inl h
  rw [Char.ofNat, dif_pos hv]
  simp [Char.ofNatAux, Char.toNat, UInt32.toNat, BitVec.toNat_ofNatLt]

lemma safe_byte_ne (b : Nat) (hs : isSafeByte b = true) :
    Char.ofNat b ≠ '+' ∧ Char.ofNat b ≠ '%' ∧ Char.ofNat b ≠ '&' ∧
    Char.ofNat b ≠ '=' ∧ b ≠ 32 := by
  have hlt : b < 128 := safe_lt_128 b hs
  have ht : (Char.ofNat b).toNat = b := toNat_ofNat_of_lt b (by omega)
  have hb : b ≠ 43 ∧ b ≠ 37 ∧ b ≠ 38 ∧ b ≠ 61 ∧ b ≠ 32 := by
    unfold isSafeByte at hs
    simp only [Bool.or_eq_true, Bool.and_eq_true, decide_eq_true_eq, beq_iff_eq] at hs
    omega
  refine ⟨?_, ?_, ?_, ?_, hb.2.2.2.2⟩
  · intro he; exact hb.1 (by rw [← ht, he]; rfl)
  · intro he; exact hb.2.1 (by rw [← ht, he]; rfl)
  · intro he; exact hb.2.2.1 (by rw [← ht, he]; rfl)
  · intro he; exact hb.2.2.2.1 (by rw [← ht, he]; rfl)

lemma hexDigitU_facts : ∀ m < 16,
    isHexDigitChar (hexDigitU m) = true ∧ hexVal (hexDigitU m) = m ∧
    hexDigitU m ≠ '+' ∧ hexDigitU m ≠ '%' := by decide

/-- Every character `hexDigitL` can produce is a lowercase hex digit. -/
lemma hexDigitL_mem (n : Nat) : hexDigitL n ∈ "0123456789abcdef".data := by
  by_cases h : n < 16
  · have hall : ∀ m < 16, hexDigitL m ∈ "0123456789abcdef".data := by decide
    exact hall n h
  · unfold hexDigitL
    rw [List.getD_eq_default _ _ (by simpa using Nat.le_of_not_lt h)]
    decide

lemma hexLower_char_facts : ∀ c ∈ "0123456789abcdef".data,
    c.toNat < 128 ∧ isSafeByte c.toNat = true ∧ c ≠ '+' ∧ c ≠ '%' ∧
    c ≠ '&' ∧ c ≠ '=' := by decide

/-- Characters of a lowercase hexdigest: ASCII, safe, and free of the
separator characters. -/
lemma bytesToHexLower_chars (bs : List Nat) :
    ∀ c ∈ (bytesToHexLower bs).data,
      c.toNat < 128 ∧ isSafeByte c.toNat = true ∧ c ≠ '+' ∧ c ≠ '%' ∧
      c ≠ '&' ∧ c ≠ '=' := by
  intro c hc
  unfold bytesToHexLower at hc
  simp only [String.data] at hc
  simp only [List.mem_flatten, List.mem_map] at hc
  obtain ⟨l, ⟨b, _, rfl⟩, hcl⟩ := hc
  simp only [List.mem_cons, List.mem_singleton] at hcl
  rcases hcl with rfl | rfl | h
  · exact hexLower_char_facts _ (hexDigitL_mem _)
  · exact hexLower_char_facts _ (hexDigitL_mem _)
  · cases h

/-! ## Percent-encoding round trip -/

lemma mk_data (s : String) : String.mk s.data = s := by
  cases s; rfl

lemma uqChars_nil : uqChars [] = [] := by simp [uqChars]

lemma uqChars_plus (r : List Char) : uqChars ('+' :: r) = ' ' :: uqChars r := by
  rw [uqChars.eq_def]
  simp

lemma uqChars_cons_safe (c : Char) (r : List Char) (h1 : c ≠ '+') (h2 : c ≠ '%') :
    uqChars (c :: r) = c :: uqChars r := by
  rw [uqChars.eq_def]
  simp [h1, h2]

lemma uqChars_perc_hex (h1 h2 : Char) (r : List Char)
    (hh1 : isHexDigitChar h1 = true) (hh2 : isHexDigitChar h2 = true) :
    uqChars ('%' :: h1 :: h2 :: r) = Char.ofNat (16 * hexVal h1 + hexVal h2) :: uqChars r := by
  rw [uqChars.eq_def]
  simp [hh1, hh2]

lemma qpBytes_cons (b : Nat) (bs : List Nat) :
    qpBytes (b :: bs) =
      (if isSafeByte b then [Char.ofNat b]
       else if b == 32 then ['+']
       else ['%', hexDigitU (b / 16), hexDigitU (b % 16)]) ++ qpBytes bs := rfl

/-- Decoding inverts per-byte encoding (for genuine bytes). -/
lemma uq_qp (bs : List Nat) (h : ∀ b ∈ bs, b < 256) :
    uqChars (qpBytes bs) = bs.map Char.ofNat := by
  induction bs with
  | nil => simp [qpBytes, uqChars_nil]
  | cons b bs ih =>
      have hb : b < 256 := h b (by simp)
      have ih' := ih (fun x hx => h x (by simp [hx]))
      rw [qpBytes_cons]
      by_cases hs : isSafeByte b = true
      · obtain ⟨hp, hq, _, _, _⟩ := safe_byte_ne b hs
        simp only [hs, if_true, List.singleton_append, List.map_cons]
        rw [uqChars_cons_safe _ _ hp hq, ih']
      · simp only [hs, if_false, Bool.false_eq_true]
        by_cases h32 : b = 32
        · subst h32
          simp only [beq_self_eq_true, if_true, List.singleton_append, List.map_cons]
          rw [uqChars_plus, ih']
        · have hne : (b == 32) = false := by simp [h32]
          simp only [hne, Bool.false_eq_true, if_false, List.cons_append, List.nil_append,
            List.map_cons]
          have hdiv : b / 16 < 16 := by omega
          have hmod : b % 16 < 16 := by omega
          obtain ⟨hx1, hv1, _, _⟩ := hexDigitU_facts _ hdiv
          obtain ⟨hx2, hv2, _, _⟩ := hexDigitU_facts _ hmod
          rw [uqChars_perc_hex _ _ _ hx1 hx2, ih', hv1, hv2, Nat.div_add_mod]

/-- Upper-case hex digits avoid the query separators. -/
lemma hexDigitU_mem (n : Nat) : hexDigitU n ∈ "0123456789ABCDEF".data := by
  by_cases h : n < 16
  · have hall : ∀ m < 16, hexDigitU m ∈ "0123456789ABCDEF".data := by decide
    exact hall n h
  · unfold hexDigitU
    rw [List.getD_eq_default _ _ (by simpa using Nat.le_of_not_lt h)]
    decide

lemma hexUpper_ne : ∀ c ∈ "0123456789ABCDEF".data, c ≠ '&' ∧ c ≠ '=' := by decide

/-- Encoded output never contains a raw separator. -/
lemma qp_chars_ne (bs : List Nat) : ∀ c ∈ qpBytes bs, c ≠ '&' ∧ c ≠ '=' := by
  induction bs with
  | nil => simp [qpBytes]
  | cons b bs ih =>
      intro c hc
      rw [qpBytes_cons] at hc
      rcases List.mem_append.1 hc with hc | hc
      · split_ifs at hc with hs h32
        · simp only [List.mem_singleton] at hc
          subst hc
          obtain ⟨_, _, h3, h4, _⟩ := safe_byte_ne b hs
          exact ⟨h3, h4⟩
        · simp only [List.mem_singleton] at hc
          subst hc
          exact ⟨by decide, by decide⟩
        · simp only [List.mem_cons, List.mem_singleton, List.not_mem_nil, or_false] at hc
          rcases hc with rfl | rfl | rfl
          · exact ⟨by decide, by decide⟩
          · exact hexUpper_ne _ (hexDigitU_mem _)
          · exact hexUpper_ne _ (hexDigitU_mem _)
      · exact ih c hc

lemma splitAmp_ne_nil (l : List Char) : splitAmp l ≠ [] := by
  cases l with
  | nil => simp [splitAmp]
  | cons c r =>
      rw [splitAmp]
      split_ifs
      · simp
      · cases h : splitAmp r <;> simp

lemma splitAmp_no_amp (l : List Char) (h : ∀ c ∈ l, c ≠ '&') : splitAmp l = [l] := by
  induction l with
  | nil => rfl
  | cons c r ih =>
      rw [splitAmp]
      rw [if_neg (h c (by simp))]
      rw [ih (fun x hx => h x (by simp [hx]))]

lemma splitAmp_append (xs ys : List Char) (h : ∀ c ∈ xs, c ≠ '&') :
    splitAmp (xs ++ '&' :: ys) = xs :: splitAmp ys := by
  induction xs with
  | nil => simp [splitAmp]
  | cons c r ih =>
      rw [List.cons_append, splitAmp, if_neg (h c (by simp))]
      rw [ih (fun x hx => h x (by simp [hx]))]

lemma splitEq1_append (xs ys : List Char) (h : ∀ c ∈ xs, c ≠ '=') :
    splitEq1 (xs ++ '=' :: ys) = (xs, ys) := by
  induction xs with
  | nil => simp [splitEq1]
  | cons c r ih =>
      rw [List.cons_append, splitEq1, if_neg (h c (by simp))]
      rw [ih (fun x hx => h x (by simp [hx]))]

/-- Decoding inverts `quote_plus` on ASCII strings. -/
lemma uq_quotePlus (s : String) (h : ∀ c ∈ s.data, c.toNat < 128) :
    uqChars (quotePlus s).data = s.data := by
  show uqChars (qpBytes (utf8Bytes s)) = s.data
  rw [utf8Bytes_ascii s h, uq_qp _ (by
    intro b hb
    rcases List.mem_map.1 hb with ⟨c, hc, rfl⟩
    exact Nat.lt_trans (h c hc) (by norm_num))]
  rw [List.map_map]
  have hco : Char.ofNat ∘ Char.toNat = id := funext Char.ofNat_toNat
  rw [hco, List.map_id]

/-- `quote_plus` is the identity on strings of always-safe characters. -/
lemma quotePlus_id_safe (s : String) (h : ∀ c ∈ s.data, isSafeByte c.toNat = true) :
    quotePlus s = s := by
  unfold quotePlus
  rw [utf8Bytes_ascii s (fun c hc => safe_lt_128 _ (h c hc))]
  have : ∀ l : List Char, (∀ c ∈ l, isSafeByte c.toNat = true) →
      qpBytes (l.map Char.toNat) = l := by
    intro l hl
    induction l with
    | nil => rfl
    | cons c r ih =>
        rw [List.map_cons, qpBytes_cons, if_pos (hl c (by simp))]
        rw [ih (fun x hx => hl x (by simp [hx]))]
        simp [Char.ofNat_toNat]
  rw [this s.data h, mk_data]

/-- All characters appearing in one encoded pair avoid the separators. -/
lemma encPair_chars_ne (p : String × String) : ∀ c ∈ encPair p, c ≠ '&' := by
  intro c hc
  unfold encPair at hc
  rcases List.mem_append.1 hc with hc | hc
  · exact (qp_chars_ne _ _ hc).1
  · rcases List.mem_cons.1 hc with rfl | hc
    · decide
    · exact (qp_chars_ne _ _ hc).1

lemma encPair_ne_nil (p : String × String) : encPair p ≠ [] := by
  unfold encPair
  intro h
  rcases List.append_eq_nil.1 h with ⟨_, h2⟩
  cases h2

lemma urlencodeChars_cons (p : String × String) (ps : List (String × String)) (h : ps ≠ []) :
    urlencodeChars (p :: ps) = encPair p ++ '&' :: urlencodeChars ps := by
  cases ps with
  | nil => exact absurd rfl h
  | cons q qs => rfl

lemma urlencodeChars_ne_nil (ps : List (String × String)) (h : ps ≠ []) :
    urlencodeChars ps ≠ [] := by
  cases ps with
  | nil => exact absurd rfl h
  | cons p qs =>
      cases qs with
      | nil => exact encPair_ne_nil p
      | cons q qs' =>
          rw [urlencodeChars_cons _ _ (by simp)]
          intro hn
          rcases List.append_eq_nil.1 hn with ⟨_, h2⟩
          cases h2

/-- Ordered-ASCII parameter lists. -/
def asciiPairs (ps : List (String × String)) : Prop :=
  ∀ p ∈ ps, (∀ c ∈ p.1.data, c.toNat < 128) ∧ (∀ c ∈ p.2.data, c.toNat < 128)

instance (ps : List (String × String)) : Decidable (asciiPairs ps) := by
  unfold asciiPairs
  infer_instance

lemma parseQs_piece (p : String × String)
    (h1 : ∀ c ∈ p.1.data, c.toNat < 128) (h2 : ∀ c ∈ p.2.data, c.toNat < 128) :
    ((String.mk (uqChars (splitEq1 (encPair p)).1),
      String.mk (uqChars (splitEq1 (encPair p)).2)) : String × String) = p := by
  have hsp : splitEq1 (encPair p) = ((quotePlus p.1).data, (quotePlus p.2).data) :=
    splitEq1_append _ _ (fun c hc => (qp_chars_ne _ _ hc).2)
  simp only [hsp]
  rw [uq_quotePlus _ h1, uq_quotePlus _ h2, mk_data, mk_data]

/-- Round trip: parsing the canonical query string recovers exactly the
parameters in their given order (for ASCII parameters). -/
lemma parseQs_urlencode (ps : List (String × String)) (h : asciiPairs ps) :
    parseQs (urlencode ps) = ps := by
  induction ps with
  | nil => rfl
  | cons p rest ih =>
      by_cases hrest : rest = []
      · subst hrest
        show parseQs (String.mk (urlencodeChars [p])) = [p]
        unfold parseQs
        rw [if_neg (by
          show ¬(String.mk (urlencodeChars [p])).data = []
          exact urlencodeChars_ne_nil [p] (by simp))]
        show ((splitAmp (urlencodeChars [p])).map _) = [p]
        have he : urlencodeChars [p] = encPair p := rfl
        rw [he, splitAmp_no_amp _ (encPair_chars_ne p), List.map_singleton]
        have hp := h p (by simp)
        exact congrArg (fun x => [x]) (parseQs_piece p hp.1 hp.2)
      · show parseQs (String.mk (urlencodeChars (p :: rest))) = p :: rest
        unfold parseQs
        rw [if_neg (by
          show ¬(String.mk (urlencodeChars (p :: rest))).data = []
          exact urlencodeChars_ne_nil (p :: rest) (by simp))]
        show ((splitAmp (urlencodeChars (p :: rest))).map _) = p :: rest
        rw [urlencodeChars_cons p rest hrest,
          splitAmp_append _ _ (encPair_chars_ne p), List.map_cons]
        have hp := h p (by simp)
        rw [parseQs_piece p hp.1 hp.2]
        have ihr := ih (fun x hx => h x (by simp [hx]))
        unfold parseQs at ihr
        rw [if_neg (by
          show ¬(String.mk (urlencodeChars rest)).data = []
          exact urlencodeChars_ne_nil rest hrest)] at ihr
        exact congrArg (fun l => p :: l) ihr

/-! ## Rounding bounds -/

lemma ratFloor_eq (q : ℚ) : ratFloor q = ⌊q⌋ := Rat.floor_def.symm

lemma abs_halfEven_sub (x : ℚ) : |((halfEven x : ℤ) : ℚ) - x| ≤ 1 / 2 := by
  unfold halfEven
  rw [ratFloor_eq]
  have h1 : ((Int.floor x : ℤ) : ℚ) ≤ x := Int.floor_le x
  have h2 : x < (Int.floor x : ℤ) + 1 := Int.lt_floor_add_one x
  split_ifs with hc1 hc2 hc3 <;> rw [abs_le] <;> push_cast <;> constructor <;> linarith

lemma abs_round8_sub (x : ℚ) : |round8 x - x| ≤ 1 / 200000000 := by
  have h := abs_halfEven_sub (x * 100000000)
  have he : round8 x - x = (((halfEven (x * 100000000) : ℤ) : ℚ) - x * 100000000) / 100000000 := by
    unfold round8; ring
  rw [he, abs_div]
  rw [abs_of_pos (by norm_num : (0:ℚ) < 100000000)]
  rw [div_le_div_iff₀ (by norm_num) (by norm_num)]
  nlinarith [h]

/-! ## Send-operation lemmas -/

lemma pyUpper_POST : pyUpper "POST" = "POST" := by decide

/-- Whatever the network outcome, a send with a supported method transmits
exactly one request: the signed URL with the API key header. -/
lemma sendSigned_sent (secret apiKey baseUrl method path : String)
    (params : Option (List (String × String))) (ts : Nat) (net : HttpOutcome)
    (hm : pyUpper method = "POST" ∨ pyUpper method = "GET") :
    (sendSignedRequest secret apiKey baseUrl method path params ts net).sent =
      [⟨pyUpper method,
        rstripSlash baseUrl ++ path ++ "?" ++ signedQueryStr secret params ts,
        [("X-MBX-APIKEY", apiKey)]⟩] := by
  simp only [sendSignedRequest]
  rw [if_pos hm]
  cases net with
  | transportFailure m => rfl
  | resp st bd jo =>
      dsimp only
      split_ifs <;> rfl

/-- The first audited log line is always the request line carrying the full
signed query. -/
lemma sendSigned_logs_head (secret apiKey baseUrl method path : String)
    (params : Option (List (String × String))) (ts : Nat) (net : HttpOutcome) :
    (sendSignedRequest secret apiKey baseUrl method path params ts net).logs.getD 0 "" =
      "REQUEST -> " ++ pyUpper method ++ " " ++ (rstripSlash baseUrl ++ path) ++ "?" ++
        signedQueryStr secret params ts := by
  simp only [sendSignedRequest]
  split_ifs with hm
  · cases net with
    | transportFailure m => rfl
    | resp st bd jo =>
        dsimp only
        split_ifs <;> rfl
  · rfl

/-- `place_market_order` transmits exactly one request, determined by its
arguments. -/
lemma place_market_order_sent (secret apiKey baseUrl symbol side : String)
    (quantity : ℚ) (reduceOnly : Bool) (ts : Nat) (net : HttpOutcome) :
    (place_market_order secret apiKey baseUrl symbol side quantity reduceOnly ts net).sent =
      [marketSentRequest secret apiKey baseUrl symbol side quantity reduceOnly ts] := by
  unfold place_market_order marketSentRequest
  rw [sendSigned_sent _ _ _ _ _ _ _ _ (Or.inl pyUpper_POST), pyUpper_POST]

/-! ## TWAP loop lemmas -/

lemma twapGo_entries (secret apiKey baseUrl symbol side : String) (sliceQty : ℚ)
    (slices : Nat) (interval : ℚ) (ts : Nat → Nat) (net : Nat → HttpOutcome) :
    ∀ r i, (twapGo secret apiKey baseUrl symbol side sliceQty slices interval ts net i r).entries
      = (List.range' i r).map (sliceEntry secret apiKey baseUrl symbol side sliceQty ts net) := by
  intro r
  induction r with
  | zero => intro i; rfl
  | succ n ih =>
      intro i
      rw [List.range'_succ, List.map_cons, ← ih (i + 1)]
      rfl

lemma twapGo_sent (secret apiKey baseUrl symbol side : String) (sliceQty : ℚ)
    (slices : Nat) (interval : ℚ) (ts : Nat → Nat) (net : Nat → HttpOutcome) :
    ∀ r i, (twapGo secret apiKey baseUrl symbol side sliceQty slices interval ts net i r).sent
      = (List.range' i r).map (fun j =>
          marketSentRequest secret apiKey baseUrl symbol side (round8 sliceQty) false (ts j)) := by
  intro r
  induction r with
  | zero => intro i; rfl
  | succ n ih =>
      intro i
      rw [List.range'_succ, List.map_cons, ← ih (i + 1)]
      show (place_market_order secret apiKey baseUrl symbol side (round8 sliceQty) false
          (ts i) (net i)).sent ++ _ = _
      rw [place_market_order_sent]
      rfl

/-! ## Claim theorems -/

/-- C6: for every TWAP invocation with slice count less than 1, the execution
fails with the parameter-validation error (`ValueError` with the message
`slices must be >= 1`, realising the spec's `InvalidParameterError`) before
any order is placed: no request is transmitted, nothing is logged, no sleep
happens, and no outcome entry exists. -/
theorem C6_twap_invalid_slice_count (secret apiKey baseUrl symbol side : String)
    (quantity : ℚ) (slices : ℤ) (interval : ℚ) (ts : Nat → Nat) (net : Nat → HttpOutcome)
    (h : slices < 1) :
    place_twap secret apiKey baseUrl symbol side quantity slices interval ts net =
      ⟨[], [], [], .error (.valueError "slices must be >= 1")⟩ := by
  have hns : slices ≤ 0 := by omega
  simp only [place_twap, if_pos hns]

theorem C6_twap_invalid_slice_count_witness :
    place_twap "s" "k" "https://b" "BTCUSDT" "BUY" 1 0 1 (fun _ => 7)
        (fun _ => .resp 200 "ok" true) =
      ⟨[], [], [], .error (.valueError "slices must be >= 1")⟩ :=
  C6_twap_invalid_slice_count "s" "k" "https://b" "BTCUSDT" "BUY" 1 0 1 (fun _ => 7)
    (fun _ => .resp 200 "ok" true) (by decide)

/-- C3: for every total quantity, slice count `N ≥ 1` and interval, the TWAP
execution returns an outcome log of length exactly `N`, with the entry at
position `i` being exactly the recorded outcome of slice `i`, whatever the
per-slice network outcomes are (in particular when some or all slices
fail). -/
theorem C3_twap_outcome_log_length (secret apiKey baseUrl symbol side : String)
    (quantity : ℚ) (slices : ℤ) (interval : ℚ) (ts : Nat → Nat) (net : Nat → HttpOutcome)
    (h : 1 ≤ slices) :
    ∃ es, (place_twap secret apiKey baseUrl symbol side quantity slices interval ts net).result
        = .ok es
      ∧ es.length = slices.toNat
      ∧ ∀ i, i < slices.toNat →
          es[i]? = some (sliceEntry secret apiKey baseUrl symbol side
            (quantity / (slices : ℚ)) ts net i) := by
  have hns : ¬slices ≤ 0 := by omega
  refine ⟨(twapGo secret apiKey baseUrl symbol side (quantity / (slices : ℚ)) slices.toNat
      interval ts net 0 slices.toNat).entries, ?_, ?_, ?_⟩
  · simp only [place_twap, if_neg hns]
  · rw [twapGo_entries]
    simp
  · intro i hi
    rw [twapGo_entries, List.getElem?_map, List.getElem?_range' 0 1 hi]
    simp

theorem C3_twap_outcome_log_length_witness :
    ∃ es, (place_twap "s" "k" "https://b" "btcusdt" "sell" 1 3 2 (fun _ => 7)
        (fun _ => .transportFailure "down")).result = .ok es
      ∧ es.length = (3 : ℤ).toNat
      ∧ ∀ i, i < (3 : ℤ).toNat →
          es[i]? = some (sliceEntry "s" "k" "https://b" "btcusdt" "sell"
            (1 / ((3 : ℤ) : ℚ)) (fun _ => 7) (fun _ => .transportFailure "down") i) :=
  C3_twap_outcome_log_length "s" "k" "https://b" "btcusdt" "sell" 1 3 2 (fun _ => 7)
    (fun _ => .transportFailure "down") (by decide)

/-- C4: a failure of the order attempt at slice `i` does not abort the
remaining slices: the outcome log still has one entry per slice, position `i`
holds the recorded error entry (the dict built from `str(e)`), every other
position holds the recorded outcome (success or error) of its slice, and all
`N` slices transmit their request. -/
theorem C4_twap_failure_isolation (secret apiKey baseUrl symbol side : String)
    (quantity : ℚ) (slices : ℤ) (interval : ℚ) (ts : Nat → Nat) (net : Nat → HttpOutcome)
    (h : 1 ≤ slices) (i : Nat) (hi : i < slices.toNat) (e : SendError)
    (hfail : (place_market_order secret apiKey baseUrl symbol side
        (round8 (quantity / (slices : ℚ))) false (ts i) (net i)).result = .error e) :
    ∃ es, (place_twap secret apiKey baseUrl symbol side quantity slices interval ts net).result
        = .ok es
      ∧ es.length = slices.toNat
      ∧ es[i]? = some (.err (errMsg e))
      ∧ (∀ j, j < slices.toNat →
          es[j]? = some (sliceEntry secret apiKey baseUrl symbol side
            (quantity / (slices : ℚ)) ts net j))
      ∧ (place_twap secret apiKey baseUrl symbol side quantity slices interval ts net).sent.length
          = slices.toNat := by
  have hns : ¬slices ≤ 0 := by omega
  have hall : ∀ j, j < slices.toNat →
      (twapGo secret apiKey baseUrl symbol side (quantity / (slices : ℚ)) slices.toNat
        interval ts net 0 slices.toNat).entries[j]?
        = some (sliceEntry secret apiKey baseUrl symbol side (quantity / (slices : ℚ)) ts net j) := by
    intro j hj
    rw [twapGo_entries, List.getElem?_map, List.getElem?_range' 0 1 hj]
    simp
  refine ⟨(twapGo secret apiKey baseUrl symbol side (quantity / (slices : ℚ)) slices.toNat
      interval ts net 0 slices.toNat).entries, ?_, ?_, ?_, hall, ?_⟩
  · simp only [place_twap, if_neg hns]
  · rw [twapGo_entries]
    simp
  · rw [hall i hi]
    unfold sliceEntry
    rw [hfail]
  · simp only [place_twap, if_neg hns]
    rw [twapGo_sent]
    simp

theorem C4_twap_failure_isolation_witness :
    ∃ es, (place_twap "s" "k" "https://b" "BTCUSDT" "BUY" 1 5 2 (fun _ => 7)
        (fun j => if j = 1 then .transportFailure "boom" else .resp 200 "filled" true)).result
        = .ok es
      ∧ es.length = (5 : ℤ).toNat
      ∧ es[1]? = some (.err (errMsg (.transport "boom")))
      ∧ (∀ j, j < (5 : ℤ).toNat →
          es[j]? = some (sliceEntry "s" "k" "https://b" "BTCUSDT" "BUY"
            (1 / ((5 : ℤ) : ℚ)) (fun _ => 7)
            (fun j => if j = 1 then .transportFailure "boom" else .resp 200 "filled" true) j))
      ∧ (place_twap "s" "k" "https://b" "BTCUSDT" "BUY" 1 5 2 (fun _ => 7)
          (fun j => if j = 1 then .transportFailure "boom" else
            .resp 200 "filled" true)).sent.length = (5 : ℤ).toNat :=
  C4_twap_failure_isolation "s" "k" "https://b" "BTCUSDT" "BUY" 1 5 2 (fun _ => 7)
    (fun j => if j = 1 then .transportFailure "boom" else .resp 200 "filled" true)
    (by decide) 1 (by decide) (.transport "boom") (by decide)

/-- C7: every per-slice order the TWAP execution issues carries quantity
`round8 (Q / N)` (`Q / N` rounded half-to-even to 8 decimal places), and the
sum of the `N` per-slice quantities differs from `Q` by at most
`N * 10 ^ (-8)`. -/
theorem C7_twap_quantity_conservation (secret apiKey baseUrl symbol side : String)
    (quantity : ℚ) (slices : ℤ) (interval : ℚ) (ts : Nat → Nat) (net : Nat → HttpOutcome)
    (h : 1 ≤ slices) :
    (place_twap secret apiKey baseUrl symbol side quantity slices interval ts net).sent =
      (List.range' 0 slices.toNat).map (fun i =>
        marketSentRequest secret apiKey baseUrl symbol side
          (round8 (quantity / (slices : ℚ))) false (ts i))
    ∧ |(slices : ℚ) * round8 (quantity / (slices : ℚ)) - quantity|
        ≤ (slices : ℚ) * (1 / 100000000) := by
  constructor
  · have hns : ¬slices ≤ 0 := by omega
    simp only [place_twap, if_neg hns]
    rw [twapGo_sent]
  · have hn0 : (0 : ℚ) < (slices : ℚ) := by
      exact_mod_cast (by omega : (0 : ℤ) < slices)
    have hq : (slices : ℚ) * (quantity / (slices : ℚ)) = quantity :=
      mul_div_cancel₀ _ (ne_of_gt hn0)
    have hb := abs_round8_sub (quantity / (slices : ℚ))
    calc |(slices : ℚ) * round8 (quantity / (slices : ℚ)) - quantity|
        = |(slices : ℚ)| * |round8 (quantity / (slices : ℚ)) - quantity / (slices : ℚ)| := by
          rw [← abs_mul]
          congr 1
          rw [mul_sub, hq]
      _ ≤ (slices : ℚ) * (1 / 200000000) := by
          rw [abs_of_pos hn0]
          exact mul_le_mul_of_nonneg_left hb (le_of_lt hn0)
      _ ≤ (slices : ℚ) * (1 / 100000000) :=
          mul_le_mul_of_nonneg_left (by norm_num) (le_of_lt hn0)

theorem C7_twap_quantity_conservation_witness :
    (place_twap "s" "k" "https://b" "BTCUSDT" "BUY" 1 3 2 (fun _ => 7)
        (fun _ => .resp 200 "filled" true)).sent =
      (List.range' 0 (3 : ℤ).toNat).map (fun i =>
        marketSentRequest "s" "k" "https://b" "BTCUSDT" "BUY"
          (round8 (1 / ((3 : ℤ) : ℚ))) false ((fun _ => 7) i))
    ∧ |((3 : ℤ) : ℚ) * round8 (1 / ((3 : ℤ) : ℚ)) - 1|
        ≤ ((3 : ℤ) : ℚ) * (1 / 100000000) :=
  C7_twap_quantity_conservation "s" "k" "https://b" "BTCUSDT" "BUY" 1 3 2 (fun _ => 7)
    (fun _ => .resp 200 "filled" true) (by decide)

/-- C1 counterexample: a send whose HTTP exchange ends in status 500 does not
return a result to its caller — the operation ends with the exception
(`Except.error`, modelling the re-raised `requests.HTTPError`), so the claim
that the failure is returned as a non-thrown `ExecutionResult` is false. -/
theorem C1_counterexample :
    (sendSignedRequest "s" "k" "https://b" "POST" "/fapi/v1/order"
        (some [("symbol", "BTCUSDT")]) 5 (.resp 500 "oops" true)).result
      = Except.error (.httpStatus 500 "oops") := by decide

/-- C1 (amended): on a 4xx/5xx status, a transport failure, or an
unparseable 2xx body, the send operation logs the failure and re-raises the
exception past its caller (modelled by `Except.error`), carrying the typed
failure information (status code and body, transport message, or the decode
failure); it never converts the failure into a normally returned result. -/
theorem C1_send_failure_raises (secret apiKey baseUrl method path : String)
    (params : Option (List (String × String))) (ts : Nat)
    (hm : pyUpper method = "POST" ∨ pyUpper method = "GET") :
    (∀ m, (sendSignedRequest secret apiKey baseUrl method path params ts
        (.transportFailure m)).result = .error (.transport m))
    ∧ (∀ st bd jo, 400 ≤ st → st < 600 →
        (sendSignedRequest secret apiKey baseUrl method path params ts
          (.resp st bd jo)).result = .error (.httpStatus st bd))
    ∧ (∀ st bd, ¬(400 ≤ st ∧ st < 600) →
        (sendSignedRequest secret apiKey baseUrl method path params ts
          (.resp st bd false)).result = .error (.decode bd)) := by
  refine ⟨?_, ?_, ?_⟩
  · intro m
    simp only [sendSignedRequest]
    rw [if_pos hm]
  · intro st bd jo h1 h2
    simp only [sendSignedRequest]
    rw [if_pos hm]
    rw [if_pos ⟨h1, h2⟩]
  · intro st bd hn
    simp only [sendSignedRequest]
    rw [if_pos hm]
    rw [if_neg hn]
    simp

theorem C1_send_failure_raises_witness :
    (sendSignedRequest "s" "k" "https://b" "POST" "/p" none 0
        (.transportFailure "boom")).result = .error (.transport "boom")
    ∧ (sendSignedRequest "s" "k" "https://b" "POST" "/p" none 0
        (.resp 503 "dead" true)).result = .error (.httpStatus 503 "dead") := by
  have h := C1_send_failure_raises "s" "k" "https://b" "POST" "/p" none 0 (Or.inl pyUpper_POST)
  exact ⟨h.1 "boom", h.2.1 503 "dead" true (by decide) (by decide)⟩

set_option maxRecDepth 100000 in
/-- C2 counterexample: for a concrete secret and parameter set, the first
audited log line contains the signature hex digest verbatim, so the claim
that logged request lines exclude the signature is false. -/
theorem C2_counterexample :
    hmacSha256Hex (utf8Bytes "mysecret") (utf8Bytes "symbol=BTCUSDT&timestamp=1700000000000")
      = "72b3144b7806329f6428dac8005ac4d4803277c7d195561a7006dc6f83e59345"
    ∧ (sendSignedRequest "mysecret" "k" "https://testnet.binancefuture.com" "POST"
        "/fapi/v1/order" (some [("symbol", "BTCUSDT")]) 1700000000000
        (.resp 200 "ok" true)).logs.getD 0 ""
      = "REQUEST -> POST https://testnet.binancefuture.com/fapi/v1/order?symbol=BTCUSDT&timestamp=1700000000000&signature=72b3144b7806329f6428dac8005ac4d4803277c7d195561a7006dc6f83e59345" := by
  exact ⟨by decide, by decide⟩

/-- C2 (amended): every send writes to the logging collaborator a request
line that contains the full signed query — the signature hex digest
included — so the signature value is written to an externally observed
record beyond the live request. -/
theorem C2_request_log_includes_signature (secret apiKey baseUrl method path : String)
    (params : Option (List (String × String))) (ts : Nat) (net : HttpOutcome) :
    (sendSignedRequest secret apiKey baseUrl method path params ts net).logs.getD 0 "" =
      "REQUEST -> " ++ pyUpper method ++ " " ++ (rstripSlash baseUrl ++ path) ++ "?" ++
        (urlencode (effectiveParams params ts) ++ "&signature=" ++
          hmacSha256Hex (utf8Bytes secret) (utf8Bytes (urlencode (effectiveParams params ts)))) :=
  sendSigned_logs_head secret apiKey baseUrl method path params ts net

/-- C9: the API secret is used only as the HMAC key: the operation's entire
observable behaviour (requests on the wire, log lines, result, caller-visible
mutation) depends on the secret only through the HMAC digest of the canonical
query — two secrets with the same digest give identical runs — and every
transmitted request carries exactly the API-key header, never the secret. -/
theorem C9_secret_noninterference (s1 s2 apiKey baseUrl method path : String)
    (params : Option (List (String × String))) (ts : Nat) (net : HttpOutcome)
    (h : hmacSha256Hex (utf8Bytes s1) (utf8Bytes (urlencode (effectiveParams params ts)))
       = hmacSha256Hex (utf8Bytes s2) (utf8Bytes (urlencode (effectiveParams params ts)))) :
    sendSignedRequest s1 apiKey baseUrl method path params ts net
      = sendSignedRequest s2 apiKey baseUrl method path params ts net
    ∧ ∀ r ∈ (sendSignedRequest s1 apiKey baseUrl method path params ts net).sent,
        r.headers = [("X-MBX-APIKEY", apiKey)] := by
  constructor
  · simp only [sendSignedRequest, signedQueryStr, signPayload]
    rw [h]
  · intro r hr
    by_cases hm : pyUpper method = "POST" ∨ pyUpper method = "GET"
    · rw [sendSigned_sent _ _ _ _ _ _ _ _ hm] at hr
      simp only [List.mem_singleton] at hr
      rw [hr]
    · have hs : (sendSignedRequest s1 apiKey baseUrl method path params ts net).sent = [] := by
        simp only [sendSignedRequest]
        rw [if_neg hm]
      rw [hs] at hr
      cases hr

theorem C9_secret_noninterference_witness :
    (sendSignedRequest "topsecret" "k" "https://b" "POST" "/p" (some [("a", "1")]) 9
        (.resp 200 "ok" true)
      = sendSignedRequest "topsecret" "k" "https://b" "POST" "/p" (some [("a", "1")]) 9
        (.resp 200 "ok" true))
    ∧ ∀ r ∈ (sendSignedRequest "topsecret" "k" "https://b" "POST" "/p" (some [("a", "1")]) 9
        (.resp 200 "ok" true)).sent, r.headers = [("X-MBX-APIKEY", "k")] :=
  C9_secret_noninterference "topsecret" "topsecret" "k" "https://b" "POST" "/p"
    (some [("a", "1")]) 9 (.resp 200 "ok" true) rfl

/-! ## Support for C5, C8, C10 -/

lemma dictAssign_ne_nil (ps : List (String × String)) (k v : String) :
    dictAssign ps k v ≠ [] := by
  unfold dictAssign
  split_ifs with hs
  · intro hmap
    rw [List.map_eq_nil_iff] at hmap
    subst hmap
    simp at hs
  · simp

lemma urlencodeChars_append_single (ps : List (String × String)) (p : String × String)
    (h : ps ≠ []) :
    urlencodeChars (ps ++ [p]) = urlencodeChars ps ++ '&' :: encPair p := by
  induction ps with
  | nil => exact absurd rfl h
  | cons q qs ih =>
      by_cases hqs : qs = []
      · subst hqs
        rfl
      · rw [List.cons_append, urlencodeChars_cons q (qs ++ [p]) (by
          intro hx
          rcases List.append_eq_nil.1 hx with ⟨_, h2⟩
          cases h2)]
        rw [ih hqs, urlencodeChars_cons q qs hqs]
        simp [List.append_assoc]

lemma sig_chars_ascii (key msg : List Nat) :
    ∀ c ∈ (hmacSha256Hex key msg).data, c.toNat < 128 :=
  fun c hc => (bytesToHexLower_chars _ c hc).1

lemma sig_chars_safe (key msg : List Nat) :
    ∀ c ∈ (hmacSha256Hex key msg).data, isSafeByte c.toNat = true :=
  fun c hc => (bytesToHexLower_chars _ c hc).2.1

lemma quotePlus_signature : quotePlus "signature" = "signature" := by decide

/-- Appending the signature as a final parameter produces exactly the
transmitted string `query&signature=(hex)`. -/
lemma urlencode_append_signature (ps : List (String × String)) (sig : String)
    (hne : ps ≠ []) (hsafe : ∀ c ∈ sig.data, isSafeByte c.toNat = true) :
    urlencode (ps ++ [("signature", sig)]) = urlencode ps ++ "&signature=" ++ sig := by
  unfold urlencode
  rw [urlencodeChars_append_single _ _ hne]
  show String.mk (urlencodeChars ps ++ '&' ::
    ((quotePlus "signature").data ++ '=' :: (quotePlus sig).data)) = _
  rw [quotePlus_signature, quotePlus_id_safe sig hsafe]
  show String.mk _ = String.mk ((urlencodeChars ps ++ "&signature=".data) ++ sig.data)
  apply congrArg
  rw [List.append_assoc]
  rfl

/-- C5: the send pipeline appends the millisecond timestamp as the final
parameter before signing, URL-encodes the parameters in insertion order into
the canonical query string, signs exactly that string with HMAC-SHA256 under
the secret, transmits `query&signature=(hex digest)`, and the canonical
string (with the signature appended last) parses back to exactly the
parameters in their given order followed by the signature pair. -/
theorem C5_sign_canonical_query (secret apiKey baseUrl path : String)
    (params : Option (List (String × String))) (ts : Nat) (net : HttpOutcome)
    (hts : "timestamp" ∉ (origParams params).map Prod.fst)
    (hAscii : asciiPairs (effectiveParams params ts)) :
    effectiveParams params ts = origParams params ++ [("timestamp", toString ts)]
    ∧ (sendSignedRequest secret apiKey baseUrl "POST" path params ts net).sent =
        [⟨"POST",
          rstripSlash baseUrl ++ path ++ "?" ++
            (urlencode (effectiveParams params ts) ++ "&signature=" ++
              hmacSha256Hex (utf8Bytes secret) (utf8Bytes (urlencode (effectiveParams params ts)))),
          [("X-MBX-APIKEY", apiKey)]⟩]
    ∧ parseQs (urlencode (effectiveParams params ts)) = effectiveParams params ts
    ∧ parseQs (urlencode (effectiveParams params ts) ++ "&signature=" ++
        hmacSha256Hex (utf8Bytes secret) (utf8Bytes (urlencode (effectiveParams params ts))))
      = effectiveParams params ts ++
        [("signature",
          hmacSha256Hex (utf8Bytes secret) (utf8Bytes (urlencode (effectiveParams params ts))))] := by
  refine ⟨dictAssign_not_mem _ _ _ hts, ?_, parseQs_urlencode _ hAscii, ?_⟩
  · have hsent := sendSigned_sent secret apiKey baseUrl "POST" path params ts net
      (Or.inl pyUpper_POST)
    rw [pyUpper_POST] at hsent
    exact hsent
  · have hne : effectiveParams params ts ≠ [] :=
      dictAssign_ne_nil (origParams params) "timestamp" (toString ts)
    rw [← urlencode_append_signature _ _ hne (sig_chars_safe _ _)]
    apply parseQs_urlencode
    intro p hp
    rcases List.mem_append.1 hp with hp | hp
    · exact hAscii p hp
    · simp only [List.mem_singleton] at hp
      subst hp
      refine ⟨?_, ?_⟩
      · show ∀ c ∈ ("signature" : String).data, c.toNat < 128
        decide
      · exact sig_chars_ascii _ _

theorem C5_sign_canonical_query_witness :
    effectiveParams (some [("symbol", "BTCUSDT")]) 1700000000000
      = origParams (some [("symbol", "BTCUSDT")]) ++ [("timestamp", toString 1700000000000)]
    ∧ (sendSignedRequest "mysecret" "k" "https://b" "POST" "/fapi/v1/order"
        (some [("symbol", "BTCUSDT")]) 1700000000000 (.resp 200 "ok" true)).sent =
        [⟨"POST",
          rstripSlash "https://b" ++ "/fapi/v1/order" ++ "?" ++
            (urlencode (effectiveParams (some [("symbol", "BTCUSDT")]) 1700000000000) ++
              "&signature=" ++
              hmacSha256Hex (utf8Bytes "mysecret")
                (utf8Bytes (urlencode (effectiveParams (some [("symbol", "BTCUSDT")]) 1700000000000)))),
          [("X-MBX-APIKEY", "k")]⟩]
    ∧ parseQs (urlencode (effectiveParams (some [("symbol", "BTCUSDT")]) 1700000000000))
      = effectiveParams (some [("symbol", "BTCUSDT")]) 1700000000000
    ∧ parseQs (urlencode (effectiveParams (some [("symbol", "BTCUSDT")]) 1700000000000) ++
        "&signature=" ++
        hmacSha256Hex (utf8Bytes "mysecret")
          (utf8Bytes (urlencode (effectiveParams (some [("symbol", "BTCUSDT")]) 1700000000000))))
      = effectiveParams (some [("symbol", "BTCUSDT")]) 1700000000000 ++
        [("signature",
          hmacSha256Hex (utf8Bytes "mysecret")
            (utf8Bytes (urlencode (effectiveParams (some [("symbol", "BTCUSDT")]) 1700000000000))))] :=
  C5_sign_canonical_query "mysecret" "k" "https://b" "/fapi/v1/order"
    (some [("symbol", "BTCUSDT")]) 1700000000000 (.resp 200 "ok" true)
    (by decide) (by decide)

/-- C8 counterexample: calling the market-order placement with quantity `-1`
transmits a request (whose parameter set carries `quantity=-1.0`) and
returns the exchange response normally — no validation error is raised and
network activity does occur, so the claim that a non-positive quantity
raises a `ValidationError` before any network activity is false for the
placement operations. -/
theorem C8_counterexample :
    (place_market_order "s" "k" "https://b" "BTCUSDT" "BUY" (-1) false 3
        (.resp 200 "ok" true)).sent.length = 1
    ∧ (place_market_order "s" "k" "https://b" "BTCUSDT" "BUY" (-1) false 3
        (.resp 200 "ok" true)).result = .ok "ok"
    ∧ lookupKey (marketOrderParams "BTCUSDT" "BUY" (-1) false) "quantity" = some "-1.0" := by
  have hfs : floatStr (-1) = "-1.0" := by
    have h1 : ((-1 : ℚ) < 0) := by norm_num
    rw [floatStr, if_pos h1, floatStrAbs]
    have h2 : ratFloor (-(-1)) = 1 := by norm_num [ratFloor]
    rw [h2]
    have h3 : ratFloor ((-(-1 : ℚ) - (((1 : ℤ).toNat : ℕ) : ℚ)) * 100000000) = 0 := by
      norm_num [ratFloor]
    rw [h3]
    decide
  refine ⟨?_, by decide, ?_⟩
  · rw [place_market_order_sent]
    rfl
  · show some (floatStr (-1)) = some "-1.0"
    rw [hfs]

/-- C8 (amended): quantity validation exists only on the CLI path — with
credentials present and the kind-specific checks passing, `validate_args`
rejects a non-positive quantity with `SystemExit (quantity must be
positive)` before the bot (and hence any transport) is constructed — while
the placement operations themselves perform no quantity validation and
transmit their request for every quantity, non-positive included. -/
theorem C8_quantity_validation_cli_only (a : Args)
    (h1 : optFalsy a.api_key = false) (h2 : optFalsy a.api_secret = false)
    (h3 : ¬(a.otype = "LIMIT" ∧ a.price = none))
    (h4 : ¬(a.otype = "STOP" ∧ (a.stop_price = none ∨ a.price = none)))
    (hq : a.quantity ≤ 0)
    (secret apiKey baseUrl symbol side : String) (q : ℚ) (ro : Bool) (ts : Nat)
    (net : HttpOutcome) :
    validate_args a = .error "quantity must be positive"
    ∧ (place_market_order secret apiKey baseUrl symbol side q ro ts net).sent.length = 1 := by
  constructor
  · unfold validate_args
    rw [if_neg (by simp [h1, h2]), if_neg h3, if_neg h4, if_pos hq]
  · rw [place_market_order_sent]
    rfl

theorem C8_quantity_validation_cli_only_witness :
    validate_args ⟨some "key", some "sec", "MARKET", none, none, -1⟩
      = .error "quantity must be positive"
    ∧ (place_market_order "s" "k" "https://b" "BTCUSDT" "BUY" (-2) false 3
        (.resp 200 "ok" true)).sent.length = 1 :=
  C8_quantity_validation_cli_only ⟨some "key", some "sec", "MARKET", none, none, -1⟩
    (by decide) (by decide) (by decide) (by decide) (by norm_num)
    "s" "k" "https://b" "BTCUSDT" "BUY" (-2) false 3 (.resp 200 "ok" true)

/-- C10 counterexample: a send called with a non-None but empty mapping
leaves the caller's mapping unchanged — no timestamp key is inserted —
because `params or (empty dict)` replaces every falsy argument with a fresh
dict; so the claim that every non-None mapping is mutated in place is
false. -/
theorem C10_counterexample :
    (sendSignedRequest "s" "k" "https://b" "POST" "/p" (some []) 5
        (.resp 200 "ok" true)).callerParams = some []
    ∧ lookupKey [] "timestamp" = none := by
  exact ⟨by decide, by decide⟩

/-- C10 (amended): for every call with a non-None, non-empty parameter
mapping, the caller's mapping is mutated in place by the dict assignment of
the `timestamp` key; every other key keeps its value, the `signature` key is
never inserted into the mapping (the signature lives only in the returned
query string), and when the mapping had no `timestamp` key the mutation is
exactly the append of the timestamp pair at the end. -/
theorem C10_params_timestamp_mutation (secret apiKey baseUrl method path : String)
    (ps : List (String × String)) (hne : ps ≠ []) (ts : Nat) (net : HttpOutcome)
    (hsig : "signature" ∉ ps.map Prod.fst) :
    (sendSignedRequest secret apiKey baseUrl method path (some ps) ts net).callerParams
      = some (dictAssign ps "timestamp" (toString ts))
    ∧ (∀ k, k ≠ "timestamp" →
        lookupKey (dictAssign ps "timestamp" (toString ts)) k = lookupKey ps k)
    ∧ "signature" ∉ (dictAssign ps "timestamp" (toString ts)).map Prod.fst
    ∧ ("timestamp" ∉ ps.map Prod.fst →
        dictAssign ps "timestamp" (toString ts) = ps ++ [("timestamp", toString ts)]) := by
  have hie : ps.isEmpty = false := by
    cases ps
    · exact absurd rfl hne
    · rfl
  refine ⟨?_, fun k hk => lookupKey_dictAssign_ne ps _ _ k hk,
    dictAssign_not_mem_keys ps _ _ _ hsig (by decide),
    fun hts => dictAssign_not_mem ps _ _ hts⟩
  cases net with
  | transportFailure m =>
      simp only [sendSignedRequest]
      split_ifs <;> simp [hie, hne, effectiveParams, origParams]
  | resp st bd jo =>
      simp only [sendSignedRequest]
      split_ifs <;> simp [hie, hne, effectiveParams, origParams]

theorem C10_params_timestamp_mutation_witness :
    (sendSignedRequest "s" "k" "https://b" "POST" "/p" (some [("symbol", "BTCUSDT")]) 5
        (.resp 200 "ok" true)).callerParams
      = some (dictAssign [("symbol", "BTCUSDT")] "timestamp" (toString 5))
    ∧ (∀ k, k ≠ "timestamp" →
        lookupKey (dictAssign [("symbol", "BTCUSDT")] "timestamp" (toString 5)) k
          = lookupKey [("symbol", "BTCUSDT")] k)
    ∧ "signature" ∉ (dictAssign [("symbol", "BTCUSDT")] "timestamp" (toString 5)).map Prod.fst
    ∧ ("timestamp" ∉ ([("symbol", "BTCUSDT")] : List (String × String)).map Prod.fst →
        dictAssign [("symbol", "BTCUSDT")] "timestamp" (toString 5)
          = [("symbol", "BTCUSDT")] ++ [("timestamp", toString 5)]) :=
  C10_params_timestamp_mutation "s" "k" "https://b" "POST" "/p" [("symbol", "BTCUSDT")]
    (by decide) 5 (.resp 200 "ok" true) (by decide)
